import Mathlib

/-!
Verification development for the core of a persistent job scheduler
(APScheduler v4 alpha, synchronous implementations).

The development shallowly embeds the relevant operations of:
  - the SQLAlchemy data store (datastores/sync/sqlalchemy.py),
  - the MongoDB data store (datastores/sync/mongodb.py),
  - the scheduler main loop body (schedulers/sync.py, Scheduler.run),
  - the worker job runner (workers/sync.py, Worker._run_job),
  - the event hub subscription table (events.py, _BaseEventHub).

Conventions of the embedding:
  - UTC timestamps are integers.
  - Database tables are lists of rows; SQL and MongoDB queries become list
    filters; a query without an ORDER BY returns rows in table order, a query
    with an explicit sort goes through a stable insertion sort.
  - The serializer is modelled by a tagged byte value: stored bytes either
    deserialize back to the original object or raise; serializing an object
    succeeds or raises according to a flag carried by the object.
  - Operations that can raise return Except; an Except.error result models the
    Python exception propagating to the caller.
-/

namespace APScheduler

/-- UTC timestamps, modelled as integers (microseconds since the epoch). -/
abbrev Timestamp := Int

/-- Coalesce policy for past-due fire times (policies.CoalescePolicy). -/
inductive CoalescePolicy where
  | earliest
  | latest
  | all
deriving DecidableEq, Repr

/-- Conflict policy consulted by add_schedule (policies.ConflictPolicy). -/
inductive ConflictPolicy where
  | doNothing
  | replace
  | exception
deriving DecidableEq, Repr

/-- Deserialized Schedule as handled by the data store operations. Only the fields the
data stores inspect are kept: id, task_id and next_fire_time. The serializeOk flag
models whether serializer.serialize succeeds on this object (its negation models a
SerializationError raised during re-serialization). -/
structure Sched where
  id : String
  taskId : String
  nextFireTime : Option Timestamp
  serializeOk : Bool
deriving DecidableEq, Repr

/-- Stored bytes of a schedule: either bytes that deserialize back to the schedule, or
corrupt bytes on which serializer.deserialize raises. -/
inductive SData where
  | good (s : Sched)
  | bad
deriving DecidableEq, Repr

/-- Model of serializer.deserialize on stored schedule bytes. -/
def deserializeSched : SData → Except Unit Sched
  | .good s => .ok s
  | .bad => .error ()

/-- Model of serializer.serialize on a schedule. -/
def serializeSched (s : Sched) : Except Unit SData :=
  if s.serializeOk then .ok (.good s) else .error ()

/-- Row of the schedules table (SQLAlchemy t_schedules) or of the schedules collection
(MongoDB). In MongoDB an absent acquired_until field corresponds to none. -/
structure SchedRow where
  id : String
  taskId : String
  serializedData : SData
  nextFireTime : Option Timestamp
  acquiredBy : Option String
  acquiredUntil : Option Timestamp
deriving DecidableEq, Repr

/-- Data store events (events.py), carrying the fields the claims mention. -/
inductive DSEvent where
  | scheduleAdded (scheduleId : String) (nextFireTime : Option Timestamp)
  | scheduleUpdated (scheduleId : String) (nextFireTime : Option Timestamp)
  | scheduleRemoved (scheduleId : String)
  | scheduleDeserializationFailed (scheduleId : String)
  | jobAdded (jobId : Nat)
  | jobDeserializationFailed (jobId : Nat)
deriving DecidableEq, Repr

/-- Lock-expiry test shared by both back ends: the row is free when acquired_until is
absent or strictly before now. -/
def lockFreeAt (now : Timestamp) (acquiredUntil : Option Timestamp) : Bool :=
  match acquiredUntil with
  | none => true
  | some u => u < now

/-- Stable insertion of an element into a list sorted by the strict order lt. -/
def insertByLt {α : Type} (lt : α → α → Bool) (a : α) : List α → List α
  | [] => [a]
  | x :: xs => if lt a x then a :: x :: xs else x :: insertByLt lt a xs

/-- Stable insertion sort by the strict order lt; models an explicit query sort. -/
def sortByLt {α : Type} (lt : α → α → Bool) : List α → List α
  | [] => []
  | x :: xs => insertByLt lt x (sortByLt lt xs)

/-- Sort key used by the MongoDB sort on next_fire_time; only applied to rows whose
next_fire_time is present. -/
def nftKey (r : SchedRow) : Timestamp := r.nextFireTime.getD 0

/-- Schedule rows sorted ascending by next_fire_time (MongoDB .sort call). -/
def sortByNft (rows : List SchedRow) : List SchedRow :=
  sortByLt (fun a b => decide (nftKey a < nftKey b)) rows

/-- Strict character order by code point, used for the ascending id sort. -/
def charLtB (a b : Char) : Bool := decide (a.val < b.val)

/-- Strict lexicographic order on character lists. -/
def charListLtB : List Char → List Char → Bool
  | [], [] => false
  | [], _ :: _ => true
  | _ :: _, [] => false
  | a :: as, b :: bs => charLtB a b || (a == b && charListLtB as bs)

/-- Strict lexicographic order on strings by code point, matching the ascending
primary-key order of the id sort. -/
def strLtB (a b : String) : Bool := charListLtB a.data b.data

/-- Schedule rows sorted ascending by id (MongoDB .sort on the primary key). -/
def sortBySchedId (rows : List SchedRow) : List SchedRow :=
  sortByLt (fun a b => strLtB a.id b.id) rows

/-- Stamp of the rows whose id is listed with the acquirer identity and the lease
expiry; this is the update_many / UPDATE step of acquire_schedules. -/
def stampSchedRows (acquirer : String) (acquiredUntil : Timestamp) (ids : List String)
    (table : List SchedRow) : List SchedRow :=
  table.map fun r =>
    if ids.contains r.id then
      { r with acquiredBy := some acquirer, acquiredUntil := some acquiredUntil }
    else r

/-- Deserialization of a batch of schedule rows without any exception handler, as in
MongoDBDataStore.acquire_schedules: the first corrupt row aborts the whole call. -/
def deserializeSchedRows : List SchedRow → Except Unit (List Sched)
  | [] => .ok []
  | r :: rs => do
    let s ← deserializeSched r.serializedData
    let ss ← deserializeSchedRows rs
    pure (s :: ss)

/-- MongoDBDataStore.acquire_schedules. The find filter requires next_fire_time to be
present and the lock to be absent or expired; the source filter has no comparison of
next_fire_time against now. Selected rows are sorted by next_fire_time and capped at
limit, deserialized (without a per-row exception handler), and, when any schedule was
selected, their rows are stamped with the scheduler identity and the lease expiry. -/
def mongoAcquireSchedules (now : Timestamp) (schedulerId : String) (limit : Nat)
    (lockExpirationDelay : Timestamp) (table : List SchedRow) :
    Except Unit (List Sched × List SchedRow) := do
  let selected := (sortByNft (table.filter (fun r =>
      r.nextFireTime.isSome && lockFreeAt now r.acquiredUntil))).take limit
  let schedules ← deserializeSchedRows selected
  if schedules.isEmpty then
    pure (schedules, table)
  else
    pure (schedules,
      stampSchedRows schedulerId (now + lockExpirationDelay)
        (schedules.map Sched.id) table)

/-- MongoDBDataStore.get_schedules: select by id (all rows when ids is none), sort by
id ascending, deserialize each row; a row whose bytes fail to deserialize is skipped
with a log line only, so the function publishes no event at all (its result type here
has no event component). -/
def mongoGetSchedules (ids : Option (List String)) (table : List SchedRow) : List Sched :=
  let rows := sortBySchedId (match ids with
    | some l => table.filter (fun r => l.contains r.id)
    | none => table)
  rows.filterMap (fun r => (deserializeSched r.serializedData).toOption)

/-- MongoDBDataStore.add_schedule: insert; on duplicate key consult the policy. The
replace branch replaces the whole document, so the lock fields are cleared. -/
inductive AddError where
  | conflictingId (id : String)
  | serializationFailed
deriving DecidableEq, Repr

/-- Row written by a fresh insert of add_schedule: both back ends write the id, the
task id, the serialized bytes and next_fire_time, leaving the lock fields empty. -/
def insertedScheduleRow (s : Sched) : SchedRow :=
  ⟨s.id, s.taskId, SData.good s, s.nextFireTime, none, none⟩

def mongoAddSchedule (s : Sched) (policy : ConflictPolicy) (table : List SchedRow) :
    Except AddError (List SchedRow × List DSEvent) :=
  match serializeSched s with
  | .error _ => .error AddError.serializationFailed
  | .ok data =>
  if table.any (fun r => r.id == s.id) then
    match policy with
    | .exception => .error (.conflictingId s.id)
    | .replace =>
      .ok (table.map (fun r =>
            if r.id == s.id then ⟨s.id, s.taskId, data, s.nextFireTime, none, none⟩ else r),
          [DSEvent.scheduleUpdated s.id s.nextFireTime])
    | .doNothing => .ok (table, [])
  else
    .ok (table ++ [⟨s.id, s.taskId, data, s.nextFireTime, none, none⟩],
         [DSEvent.scheduleAdded s.id s.nextFireTime])

/-- SQLAlchemyDataStore.add_schedule: INSERT; on IntegrityError consult the policy.
The replace branch is an UPDATE of serialized_data and next_fire_time only (the task_id
column and the lock columns are left as they are). -/
def sqlaAddSchedule (s : Sched) (policy : ConflictPolicy) (table : List SchedRow) :
    Except AddError (List SchedRow × List DSEvent) :=
  match serializeSched s with
  | .error _ => .error AddError.serializationFailed
  | .ok data =>
  if table.any (fun r => r.id == s.id) then
    match policy with
    | .exception => .error (.conflictingId s.id)
    | .replace =>
      .ok (table.map (fun r =>
            if r.id == s.id then { r with serializedData := data, nextFireTime := s.nextFireTime }
            else r),
          [DSEvent.scheduleUpdated s.id s.nextFireTime])
    | .doNothing => .ok (table, [])
  else
    .ok (table ++ [⟨s.id, s.taskId, data, s.nextFireTime, none, none⟩],
         [DSEvent.scheduleAdded s.id s.nextFireTime])

/-- MongoDBDataStore.remove_schedules: inside a transaction, find the documents whose
id is in the requested set (the filter has no condition on the lock fields), delete
them all, then publish ScheduleRemoved for each found id. -/
def mongoRemoveSchedules (ids : List String) (table : List SchedRow) :
    List SchedRow × List DSEvent :=
  let foundIds := (table.filter (fun r => ids.contains r.id)).map SchedRow.id
  let table1 :=
    if foundIds.isEmpty then table else table.filter (fun r => !ids.contains r.id)
  (table1, foundIds.map DSEvent.scheduleRemoved)

/-- SQLAlchemyDataStore.remove_schedules: DELETE the requested ids whose lock is absent
or expired. With RETURNING support the deleted ids come back and one ScheduleRemoved
is published per id; without RETURNING support the removed_ids variable is never
assigned, and the publish loop after the transaction raises UnboundLocalError (the
delete has already committed). The Except.error result models that exception. -/
def sqlaRemoveSchedules (supportsReturning : Bool) (now : Timestamp) (ids : List String)
    (table : List SchedRow) : List SchedRow × Except Unit (List DSEvent) :=
  let cond : SchedRow → Bool := fun r => ids.contains r.id && lockFreeAt now r.acquiredUntil
  let removedIds := (table.filter cond).map SchedRow.id
  let table1 := table.filter (fun r => !cond r)
  if supportsReturning then
    (table1, .ok (removedIds.map DSEvent.scheduleRemoved))
  else
    (table1, .error ())

/-- Deserialization helper of the SQLAlchemy store (_deserialize_schedules): a row whose
bytes fail to deserialize is skipped and a ScheduleDeserializationFailed event is
published for it; the batch continues. -/
def sqlaDeserializeSchedules : List (String × SData) → List Sched × List DSEvent
  | [] => ([], [])
  | (sid, data) :: rest =>
    let (ss, evs) := sqlaDeserializeSchedules rest
    match deserializeSched data with
    | .ok s => (s :: ss, evs)
    | .error _ => (ss, DSEvent.scheduleDeserializationFailed sid :: evs)

/-- SQLAlchemyDataStore.acquire_schedules. The CTE selects the ids of the rows whose
next_fire_time is present and not after now and whose lock is absent or expired,
capped at limit; the source CTE has no ORDER BY, so the selection follows table order.
The UPDATE stamps those rows. With RETURNING support the stamped rows come back;
without it a second SELECT returns every row whose acquired_by equals the scheduler
identity. Results go through the per-row deserializer. -/
def sqlaAcquireSchedules (supportsReturning : Bool) (now : Timestamp) (schedulerId : String)
    (limit : Nat) (lockExpirationDelay : Timestamp) (table : List SchedRow) :
    List SchedRow × List Sched × List DSEvent :=
  let dueIds := ((table.filter (fun r =>
      (match r.nextFireTime with | some t => decide (t ≤ now) | none => false) &&
      lockFreeAt now r.acquiredUntil)).take limit).map SchedRow.id
  let table1 := stampSchedRows schedulerId (now + lockExpirationDelay) dueIds table
  let resultRows :=
    if supportsReturning then table1.filter (fun r => dueIds.contains r.id)
    else table1.filter (fun r => r.acquiredBy == some schedulerId)
  let (ss, evs) := sqlaDeserializeSchedules (resultRows.map (fun r => (r.id, r.serializedData)))
  (table1, ss, evs)

/-- Partition step of SQLAlchemyDataStore.release_schedules: schedules with a next fire
time are re-serialized into update parameter sets; schedules without one, and
schedules whose re-serialization raises, go to the finished list. Both lists keep the
iteration order of the input. -/
def sqlaReleasePartition : List Sched → List (String × SData × Option Timestamp) × List String
  | [] => ([], [])
  | s :: rest =>
    let (ua, fin) := sqlaReleasePartition rest
    match s.nextFireTime with
    | some _ =>
      match serializeSched s with
      | .ok data => ((s.id, data, s.nextFireTime) :: ua, fin)
      | .error _ => (ua, s.id :: fin)
    | none => (ua, s.id :: fin)

/-- Parametrized UPDATE of release_schedules, one execution per parameter set: rows
matching the id and still acquired by the releasing scheduler get new serialized_data
and next_fire_time. The statement does not touch acquired_by or acquired_until. The
second component collects, per parameter set that matched a row, the id and the new
next_fire_time (the RETURNING result joined with the next_fire_times mapping). -/
def sqlaApplyUpdates (schedulerId : String) :
    List (String × SData × Option Timestamp) → List SchedRow →
    List SchedRow × List (String × Option Timestamp)
  | [], table => (table, [])
  | (sid, data, nft) :: rest, table =>
    let matched := table.any (fun r => r.id == sid && r.acquiredBy == some schedulerId)
    let table1 := table.map (fun r =>
      if r.id == sid && r.acquiredBy == some schedulerId then
        { r with serializedData := data, nextFireTime := nft }
      else r)
    let (table2, updated) := sqlaApplyUpdates schedulerId rest table1
    (table2, if matched then (sid, nft) :: updated else updated)

/-- SQLAlchemyDataStore.release_schedules: partition the input, run the UPDATE batch
(only when the dialect supports RETURNING; otherwise the source never executes the
update statement), DELETE the finished ids still owned by the scheduler, then publish
one ScheduleUpdated per updated row followed by one ScheduleRemoved per finished id
(the removal events are published for every finished id, whether or not the DELETE
condition matched the row). -/
def sqlaReleaseSchedules (supportsReturning : Bool) (schedulerId : String)
    (schedules : List Sched) (table : List SchedRow) : List SchedRow × List DSEvent :=
  let (updateArgs, finishedIds) := sqlaReleasePartition schedules
  let (table1, updated) :=
    if supportsReturning then sqlaApplyUpdates schedulerId updateArgs table
    else (table, [])
  let table2 := table1.filter (fun r =>
    !(finishedIds.contains r.id && r.acquiredBy == some schedulerId))
  (table2,
    updated.map (fun p => DSEvent.scheduleUpdated p.1 p.2)
      ++ finishedIds.map DSEvent.scheduleRemoved)

/-! Jobs and the worker. -/

/-- Python exception value as captured by the worker: its class module, its qualified
class name and the formatted traceback text. -/
structure PyExc where
  module : String
  qualname : String
  tracebackText : String
deriving DecidableEq, Repr

/-- Exception name computed by Worker._run_job: the bare qualified name for builtins,
otherwise the module-prefixed qualified name. -/
def excName (e : PyExc) : String :=
  if e.module = "builtins" then e.qualname
  else e.module ++ "." ++ e.qualname

/-- Outcome of invoking the payload callable of a job, job.func(*args, **kwargs): the
call either returns a value or raises. Return values are opaque; modelled as
integers. -/
inductive FuncResult where
  | returns (v : Int)
  | raises (e : PyExc)
deriving DecidableEq, Repr

/-- Deserialized Job as handled by the worker and the data stores. Job ids are unique
128-bit values; modelled as naturals. The funcResult field models the behavior of the
attached callable when invoked. -/
structure JobM where
  id : Nat
  taskId : String
  scheduleId : Option String
  scheduledFireTime : Option Timestamp
  startDeadline : Option Timestamp
  funcResult : FuncResult
deriving DecidableEq, Repr

/-- Stored bytes of a job: either bytes that deserialize back to the job, or corrupt
bytes on which serializer.deserialize raises. -/
inductive JData where
  | good (j : JobM)
  | bad
deriving DecidableEq, Repr

/-- Model of serializer.deserialize on stored job bytes. -/
def deserializeJob : JData → Except Unit JobM
  | .good j => .ok j
  | .bad => .error ()

/-- Row of the jobs table (SQLAlchemy t_jobs) or of the jobs collection (MongoDB). -/
structure JobRow where
  id : Nat
  taskId : String
  serializedData : JData
  createdAt : Timestamp
  acquiredBy : Option String
  acquiredUntil : Option Timestamp
deriving DecidableEq, Repr

/-- Job rows sorted ascending by created_at (explicit sort in both back ends). -/
def sortByCreatedAt (rows : List JobRow) : List JobRow :=
  sortByLt (fun a b => decide (a.createdAt < b.createdAt)) rows

/-- Stamp of the job rows whose id is listed with the acquirer identity and the lease
expiry. -/
def stampJobRows (acquirer : String) (acquiredUntil : Timestamp) (ids : List Nat)
    (table : List JobRow) : List JobRow :=
  table.map fun r =>
    if ids.contains r.id then
      { r with acquiredBy := some acquirer, acquiredUntil := some acquiredUntil }
    else r

/-- Deserialization of a batch of job rows without any exception handler, as in
MongoDBDataStore.acquire_jobs: the first corrupt row aborts the whole call. -/
def deserializeJobRows : List JobRow → Except Unit (List JobM)
  | [] => .ok []
  | r :: rs => do
    let j ← deserializeJob r.serializedData
    let js ← deserializeJobRows rs
    pure (j :: js)

/-- MongoDBDataStore.acquire_jobs: select the rows whose lock is absent or expired,
sorted by created_at ascending and capped at limit; deserialize them (without a
per-row handler); when at least one job was selected, stamp the rows and return the
job list, otherwise fall off the end of the function, which returns the Python value
None — modelled as the none result. -/
def mongoAcquireJobs (now : Timestamp) (workerId : String) (limit : Nat)
    (lockExpirationDelay : Timestamp) (table : List JobRow) :
    Except Unit (Option (List JobM) × List JobRow) := do
  let selected := (sortByCreatedAt (table.filter
      (fun r => lockFreeAt now r.acquiredUntil))).take limit
  let jobs ← deserializeJobRows selected
  if jobs.isEmpty then
    pure (none, table)
  else
    pure (some jobs,
      stampJobRows workerId (now + lockExpirationDelay) (jobs.map JobM.id) table)

/-- Deserialization helper of the SQLAlchemy store (_deserialize_jobs): a row whose
bytes fail to deserialize is skipped and a JobDeserializationFailed event is published
for it; the batch continues. -/
def sqlaDeserializeJobs : List (Nat × JData) → List JobM × List DSEvent
  | [] => ([], [])
  | (jid, data) :: rest =>
    let (js, evs) := sqlaDeserializeJobs rest
    match deserializeJob data with
    | .ok j => (j :: js, evs)
    | .error _ => (js, DSEvent.jobDeserializationFailed jid :: evs)

/-- SQLAlchemyDataStore.acquire_jobs: SELECT the rows whose lock is absent or expired,
ORDER BY created_at, LIMIT limit; stamp the selected ids; return the selected rows
through the per-row deserializer. The function always returns a list. -/
def sqlaAcquireJobs (now : Timestamp) (workerId : String) (limit : Nat)
    (lockExpirationDelay : Timestamp) (table : List JobRow) :
    List JobRow × List JobM × List DSEvent :=
  let selected := (sortByCreatedAt (table.filter
      (fun r => lockFreeAt now r.acquiredUntil))).take limit
  let table1 :=
    if selected.isEmpty then table
    else stampJobRows workerId (now + lockExpirationDelay) (selected.map JobRow.id) table
  let (js, evs) := sqlaDeserializeJobs (selected.map (fun r => (r.id, r.serializedData)))
  (table1, js, evs)

/-! The worker job runner. -/

/-- Worker events published by Worker._run_job, carrying the fields the claims
mention. -/
inductive WEvent where
  | jobStarted (jobId : Nat) (startTime : Timestamp)
  | jobDeadlineMissed (jobId : Nat) (startTime : Timestamp) (startDeadline : Timestamp)
  | jobCompleted (jobId : Nat) (returnValue : Int)
  | jobFailed (jobId : Nat) (exc : String) (tb : String)
deriving DecidableEq, Repr

/-- Terminal outcome events of a job run: deadline missed, completed or failed. -/
def isTerminal : WEvent → Bool
  | .jobStarted _ _ => false
  | .jobDeadlineMissed _ _ _ => true
  | .jobCompleted _ _ => true
  | .jobFailed _ _ _ => true

/-- Events published on the non-deadline path of Worker._run_job: JobStarted, then the
invocation of job.func, then JobCompleted with the return value or JobFailed with the
computed exception name and the formatted traceback. -/
def runJobMainEvents (startTime : Timestamp) (j : JobM) : List WEvent :=
  WEvent.jobStarted j.id startTime ::
    match j.funcResult with
    | .returns v => [WEvent.jobCompleted j.id v]
    | .raises e => [WEvent.jobFailed j.id (excName e) e.tracebackText]

/-- Events published by Worker._run_job: when a start deadline exists and the start
time is past it, only JobDeadlineMissed is published and job.func is never invoked;
otherwise the main path runs. -/
def runJobEvents (startTime : Timestamp) (j : JobM) : List WEvent :=
  match j.startDeadline with
  | some dl =>
    if dl < startTime then [WEvent.jobDeadlineMissed j.id startTime dl]
    else runJobMainEvents startTime j
  | none => runJobMainEvents startTime j

/-- Result of one Worker._run_job call: the published events, the running set after
the finally block, the release_jobs calls made (worker identity with the ids of the
released jobs) and whether the running-set removal raised KeyError. -/
structure RunJobResult where
  events : List WEvent
  running : List Nat
  releases : List (String × List Nat)
  keyErr : Bool
deriving DecidableEq, Repr

/-- Worker._run_job. The finally block removes the job id from the running set and
then calls release_jobs with the single job. When the id is absent the set removal
raises KeyError, so release_jobs is not reached; the events were already published. -/
def runJob (workerId : String) (startTime : Timestamp) (j : JobM) (running : List Nat) :
    RunJobResult :=
  let evs := runJobEvents startTime j
  if running.contains j.id then
    ⟨evs, running.erase j.id, [(workerId, [j.id])], false⟩
  else
    ⟨evs, running, [], true⟩

/-! The scheduler loop body. -/

/-- One observed result of a call to trigger.next() during a scheduler cycle: the
trigger either produced a value (none meaning exhaustion) or raised. -/
inductive TrigStep where
  | fires (t : Option Timestamp)
  | raises
deriving DecidableEq, Repr

/-- Deserialized Schedule as handled by the scheduler loop. The trig field lists the
successive results of the trigger.next() calls the loop makes this cycle. -/
structure SchedM where
  id : String
  taskId : String
  coalesce : CoalescePolicy
  nextFireTime : Option Timestamp
  lastFireTime : Option Timestamp
  trig : List TrigStep
deriving DecidableEq, Repr

/-- State after the fire-time loop of Scheduler.run: the accumulated fire_times list,
the next_fire_time attribute of the schedule object, and whether trigger.next()
raised. -/
structure FireCalc where
  fireTimes : List (Option Timestamp)
  nextFireTime : Option Timestamp
  trigError : Bool
deriving DecidableEq, Repr

/-- Fire-time loop of Scheduler.run. Each iteration calls trigger.next(); on an
exception the loop logs and breaks, leaving next_fire_time as it was; a value that is
absent or later than now is stored as the new next_fire_time and the loop breaks; a
past-due value is appended under coalesce = all, overwrites the head of fire_times
under coalesce = latest, and is discarded under coalesce = earliest. The empty-steps
case closes the recursion and is unreachable whenever the step list ends with a raise
or with a stopping value. -/
def computeFireTimes (now : Timestamp) (coalesce : CoalescePolicy) :
    List TrigStep → List (Option Timestamp) → Option Timestamp → FireCalc
  | [], fts, nft => ⟨fts, nft, false⟩
  | TrigStep.raises :: _, fts, nft => ⟨fts, nft, true⟩
  | TrigStep.fires none :: _, fts, _ => ⟨fts, none, false⟩
  | TrigStep.fires (some t) :: rest, fts, nft =>
    if now < t then ⟨fts, some t, false⟩
    else
      match coalesce with
      | .all => computeFireTimes now coalesce rest (fts ++ [some t]) nft
      | .latest => computeFireTimes now coalesce rest (some t :: fts.tail) nft
      | .earliest => computeFireTimes now coalesce rest fts nft

/-- Result of processing one acquired schedule in Scheduler.run: the
scheduled_fire_time of each job added to the store (in order), the schedule object as
released, and whether trigger.next() raised. -/
structure ProcessResult where
  jobs : List (Option Timestamp)
  sched : SchedM
  trigError : Bool
deriving DecidableEq, Repr

/-- Per-schedule body of Scheduler.run (after a successful task lookup): fire_times
starts as the singleton holding the acquired next_fire_time, the fire-time loop runs,
then one job is added per entry of fire_times with that entry as its
scheduled_fire_time, setting last_fire_time along the way. -/
def processSchedule (now : Timestamp) (s : SchedM) : ProcessResult :=
  let c := computeFireTimes now s.coalesce s.trig [s.nextFireTime] s.nextFireTime
  { jobs := c.fireTimes,
    sched := { s with
                nextFireTime := c.nextFireTime,
                lastFireTime := c.fireTimes.getLastD s.lastFireTime },
    trigError := c.trigError }

/-! The event hub subscription table. -/

/-- Subscription entry of _BaseEventHub: an opaque callback with an optional event
type filter (events.py, Subscription). -/
structure Subscription where
  callbackId : Nat
  eventTypes : Option (List String)
deriving DecidableEq, Repr

/-- Subscription table of _BaseEventHub: a Python dict keyed by opaque tokens, so the
keys are unique; modelled as an association list. Tokens are fresh objects; modelled
as naturals never reissued (one past the maximum key). -/
def subscribeHub (subs : List (Nat × Subscription)) (callbackId : Nat)
    (eventTypes : Option (List String)) : Nat × List (Nat × Subscription) :=
  let types := match eventTypes with
    | some l => if l.isEmpty then none else some l
    | none => none
  let tok := (subs.map Prod.fst).foldr Nat.max 0 + 1
  (tok, subs ++ [(tok, Subscription.mk callbackId types)])

/-- Hub.unsubscribe: self._subscriptions.pop(token, None). On a dict with unique keys
this removes the entry with that key when present and does nothing otherwise, never
raising. -/
def unsubscribeHub (subs : List (Nat × Subscription)) (tok : Nat) :
    List (Nat × Subscription) :=
  subs.filter (fun p => p.1 != tok)

/-! Theorems. -/

/-- Helper: under coalesce = all, the fire-time loop run on a sequence of past-due
trigger values followed by a stopping value appends every past-due value to the
accumulated fire_times and stores the stopping value as next_fire_time. -/
theorem computeFireTimes_all_eq (now : Timestamp) (pd : List Timestamp)
    (stop : Option Timestamp) (fts : List (Option Timestamp)) (nft : Option Timestamp)
    (hpd : pd.all (fun t => decide (t ≤ now)) = true)
    (hstop : stop.all (fun u => decide (now < u)) = true) :
    computeFireTimes now .all
        (pd.map (fun t => TrigStep.fires (some t)) ++ [TrigStep.fires stop]) fts nft
      = ⟨fts ++ pd.map some, stop, false⟩ := by
  induction pd generalizing fts with
  | nil =>
    cases stop with
    | none => simp [computeFireTimes]
    | some u =>
      have h : now < u := by simpa using hstop
      simp [computeFireTimes, h]
  | cons t rest ih =>
    simp only [List.all_cons, Bool.and_eq_true, decide_eq_true_eq] at hpd
    have hnot : ¬ now < t := not_lt.mpr hpd.1
    simp only [List.map_cons, List.cons_append, computeFireTimes, if_neg hnot, List.append_eq]
    rw [ih _ hpd.2]
    simp

/-- Helper: under coalesce = latest, the fire-time loop keeps a singleton fire_times
whose entry ends up as the last past-due trigger value (or the initial entry when the
trigger yielded none), and stores the stopping value as next_fire_time. -/
theorem computeFireTimes_latest_eq (now : Timestamp) (pd : List Timestamp)
    (stop : Option Timestamp) (x : Option Timestamp) (nft : Option Timestamp)
    (hpd : pd.all (fun t => decide (t ≤ now)) = true)
    (hstop : stop.all (fun u => decide (now < u)) = true) :
    computeFireTimes now .latest
        (pd.map (fun t => TrigStep.fires (some t)) ++ [TrigStep.fires stop]) [x] nft
      = ⟨[(pd.map some).getLastD x], stop, false⟩ := by
  induction pd generalizing x with
  | nil =>
    cases stop with
    | none => simp [computeFireTimes]
    | some u =>
      have h : now < u := by simpa using hstop
      simp [computeFireTimes, h]
  | cons t rest ih =>
    simp only [List.all_cons, Bool.and_eq_true, decide_eq_true_eq] at hpd
    have hnot : ¬ now < t := not_lt.mpr hpd.1
    simp only [List.map_cons, List.cons_append, computeFireTimes, if_neg hnot, List.append_eq,
      List.tail_cons]
    rw [ih _ hpd.2, List.getLastD_cons]

/-- Helper: under coalesce = earliest, the fire-time loop leaves fire_times unchanged
and stores the stopping value as next_fire_time. -/
theorem computeFireTimes_earliest_eq (now : Timestamp) (pd : List Timestamp)
    (stop : Option Timestamp) (fts : List (Option Timestamp)) (nft : Option Timestamp)
    (hpd : pd.all (fun t => decide (t ≤ now)) = true)
    (hstop : stop.all (fun u => decide (now < u)) = true) :
    computeFireTimes now .earliest
        (pd.map (fun t => TrigStep.fires (some t)) ++ [TrigStep.fires stop]) fts nft
      = ⟨fts, stop, false⟩ := by
  induction pd generalizing fts with
  | nil =>
    cases stop with
    | none => simp [computeFireTimes]
    | some u =>
      have h : now < u := by simpa using hstop
      simp [computeFireTimes, h]
  | cons t rest ih =>
    simp only [List.all_cons, Bool.and_eq_true, decide_eq_true_eq] at hpd
    have hnot : ¬ now < t := not_lt.mpr hpd.1
    simp only [List.map_cons, List.cons_append, computeFireTimes, if_neg hnot, List.append_eq]
    exact ih _ hpd.2

/-- C3: for a schedule whose stored next_fire_time is past due and whose trigger
yields the past-due times pd and then a value that is absent or later than now, one
scheduler cycle adds exactly one job at the stored next_fire_time under coalesce =
earliest, exactly one job at the most recent past-due fire time under coalesce =
latest, and one job per past-due fire time, in order, under coalesce = all; afterwards
the next_fire_time of the schedule is the first trigger value that is absent or later
than now. -/
theorem scheduler_coalescence_policies (now nft0 : Timestamp) (pd : List Timestamp)
    (stop : Option Timestamp) (s : SchedM)
    (htrig : s.trig = pd.map (fun t => TrigStep.fires (some t)) ++ [TrigStep.fires stop])
    (hnft : s.nextFireTime = some nft0)
    (h0 : nft0 ≤ now)
    (hpd : pd.all (fun t => decide (t ≤ now)) = true)
    (hstop : stop.all (fun u => decide (now < u)) = true) :
    (processSchedule now s).trigError = false ∧
    (processSchedule now s).sched.nextFireTime = stop ∧
    (processSchedule now s).jobs =
      (match s.coalesce with
       | .earliest => [some nft0]
       | .latest => [(pd.map some).getLastD (some nft0)]
       | .all => some nft0 :: pd.map some) := by
  obtain ⟨sid, stid, co, snft, slft, strig⟩ := s
  simp only at htrig hnft
  subst htrig hnft
  cases co with
  | earliest =>
    simp [processSchedule, computeFireTimes_earliest_eq now pd stop _ _ hpd hstop]
  | latest =>
    simp [processSchedule, computeFireTimes_latest_eq now pd stop _ _ hpd hstop]
  | all =>
    simp [processSchedule, computeFireTimes_all_eq now pd stop _ _ hpd hstop]

/-- Witness for C3 at a concrete input: now = 10, stored next_fire_time = 1, past-due
trigger values 2 and 3, stopping value 60, coalesce = all: three jobs at 1, 2 and 3
and a new next_fire_time of 60. -/
theorem scheduler_coalescence_policies_witness :
    (([2, 3] : List Timestamp).all (fun t => decide (t ≤ (10 : Timestamp))) = true) ∧
    ((some (60 : Timestamp)).all (fun u => decide ((10 : Timestamp) < u)) = true) ∧
    ((1 : Timestamp) ≤ 10) ∧
    ((processSchedule 10 ⟨"s", "t", CoalescePolicy.all, some 1, none,
        [TrigStep.fires (some 2), TrigStep.fires (some 3),
         TrigStep.fires (some 60)]⟩).trigError = false ∧
     (processSchedule 10 ⟨"s", "t", CoalescePolicy.all, some 1, none,
        [TrigStep.fires (some 2), TrigStep.fires (some 3),
         TrigStep.fires (some 60)]⟩).sched.nextFireTime = some 60 ∧
     (processSchedule 10 ⟨"s", "t", CoalescePolicy.all, some 1, none,
        [TrigStep.fires (some 2), TrigStep.fires (some 3),
         TrigStep.fires (some 60)]⟩).jobs = [some 1, some 2, some 3]) :=
  ⟨by decide, by decide, by decide,
   scheduler_coalescence_policies 10 1 [2, 3] (some 60)
     ⟨"s", "t", CoalescePolicy.all, some 1, none,
      [TrigStep.fires (some 2), TrigStep.fires (some 3), TrigStep.fires (some 60)]⟩
     rfl rfl (by decide) (by decide) (by decide)⟩

/-- C4: the claim says a trigger error terminalizes the schedule (next_fire_time set
to null so that release removes it). Evaluating the embedded loop body at now = 10 on
a schedule with stored next_fire_time 5 whose trigger raises on the first next() call
shows the code instead keeps next_fire_time = 5 (the schedule stays live and release
will update, not remove, it) and still adds a job for the stale fire time. -/
theorem trigger_error_keeps_next_fire_time :
    (processSchedule 10 ⟨"s1", "task1", CoalescePolicy.latest, some 5, none,
        [TrigStep.raises]⟩).trigError = true ∧
    (processSchedule 10 ⟨"s1", "task1", CoalescePolicy.latest, some 5, none,
        [TrigStep.raises]⟩).sched.nextFireTime = some 5 ∧
    (processSchedule 10 ⟨"s1", "task1", CoalescePolicy.latest, some 5, none,
        [TrigStep.raises]⟩).jobs = [some 5] :=
  ⟨rfl, rfl, rfl⟩

/-- C1: counterexample evaluation for the acquire_schedules contract. The claim
requires next_fire_time ≤ now for every acquired schedule, ascending next_fire_time
order, and lock stamping, on every back end. At now = 0 the MongoDB store returns and
locks a schedule whose next_fire_time is 100 (not yet due), because its filter never
compares next_fire_time with now; and the SQLAlchemy store, whose selection has no
ORDER BY, returns two due schedules in table order (fire times 10 then 5) rather than
ascending order. -/
theorem acquire_schedules_contract_violations :
    mongoAcquireSchedules 0 "sched1" 100 30
        [⟨"future", "t", SData.good ⟨"future", "t", some 100, true⟩, some 100, none, none⟩]
      = .ok ([⟨"future", "t", some 100, true⟩],
             [⟨"future", "t", SData.good ⟨"future", "t", some 100, true⟩, some 100,
               some "sched1", some 30⟩]) ∧
    (sqlaAcquireSchedules true 20 "s" 100 30
        [⟨"b", "t", SData.good ⟨"b", "t", some 10, true⟩, some 10, none, none⟩,
         ⟨"a", "t", SData.good ⟨"a", "t", some 5, true⟩, some 5, none, none⟩]).2.1
      = [⟨"b", "t", some 10, true⟩, ⟨"a", "t", some 5, true⟩] :=
  ⟨rfl, rfl⟩

/-- C2: for every job handed to the worker job runner with its id in the running set,
exactly one terminal outcome event is published: JobDeadlineMissed when a start
deadline exists and the start time is past it (and then the callable is not invoked,
so no JobStarted appears), otherwise JobStarted followed by JobCompleted with the
return value when the callable returns or by JobFailed with the computed exception
name and formatted traceback when it raises; in every case the job id is removed from
the running set and release_jobs is called once for this worker with exactly this
job. -/
theorem run_job_single_terminal_outcome (workerId : String) (startTime : Timestamp)
    (j : JobM) (running : List Nat) (hmem : j.id ∈ running) :
    (runJob workerId startTime j running).events.countP isTerminal = 1 ∧
    (runJob workerId startTime j running).running = running.erase j.id ∧
    (runJob workerId startTime j running).releases = [(workerId, [j.id])] ∧
    (match j.startDeadline with
     | some dl =>
        (dl < startTime →
          (runJob workerId startTime j running).events
            = [WEvent.jobDeadlineMissed j.id startTime dl]) ∧
        (startTime ≤ dl →
          (runJob workerId startTime j running).events
            = WEvent.jobStarted j.id startTime ::
                (match j.funcResult with
                 | .returns v => [WEvent.jobCompleted j.id v]
                 | .raises e => [WEvent.jobFailed j.id (excName e) e.tracebackText]))
     | none =>
        (runJob workerId startTime j running).events
          = WEvent.jobStarted j.id startTime ::
              (match j.funcResult with
               | .returns v => [WEvent.jobCompleted j.id v]
               | .raises e => [WEvent.jobFailed j.id (excName e) e.tracebackText])) := by
  refine ⟨?_, ?_, ?_, ?_⟩
  · cases hdl : j.startDeadline with
    | none =>
      cases hf : j.funcResult <;>
        simp [runJob, hmem, runJobEvents, runJobMainEvents, hdl, hf, isTerminal,
          List.countP_cons]
    | some dl =>
      by_cases hlt : dl < startTime
      · simp [runJob, hmem, runJobEvents, hdl, if_pos hlt, isTerminal, List.countP_cons]
      · cases hf : j.funcResult <;>
          simp [runJob, hmem, runJobEvents, runJobMainEvents, hdl, if_neg hlt, hf,
            isTerminal, List.countP_cons]
  · simp [runJob, hmem]
  · simp [runJob, hmem]
  · cases hdl : j.startDeadline with
    | none =>
      simp [runJob, hmem, runJobEvents, runJobMainEvents, hdl]
    | some dl =>
      refine ⟨fun hlt => ?_, fun hle => ?_⟩
      · simp [runJob, hmem, runJobEvents, hdl, if_pos hlt]
      · have hnlt : ¬ dl < startTime := not_lt.mpr hle
        simp [runJob, hmem, runJobEvents, runJobMainEvents, hdl, if_neg hnlt]

/-- Witness for C2 at a concrete input: worker w starts job 7 (deadline 3, callable
returning 42) at time 5; the deadline is missed, so the only event is
JobDeadlineMissed, the id leaves the running set and the job is released. -/
theorem run_job_single_terminal_outcome_witness :
    (7 : Nat) ∈ [7] ∧
    ((runJob "w" 5 ⟨7, "t", none, some 1, some 3, FuncResult.returns 42⟩ [7]).events.countP
        isTerminal = 1 ∧
     (runJob "w" 5 ⟨7, "t", none, some 1, some 3, FuncResult.returns 42⟩ [7]).running
        = [7].erase 7 ∧
     (runJob "w" 5 ⟨7, "t", none, some 1, some 3, FuncResult.returns 42⟩ [7]).releases
        = [("w", [7])] ∧
     (((3 : Timestamp) < 5 →
        (runJob "w" 5 ⟨7, "t", none, some 1, some 3, FuncResult.returns 42⟩ [7]).events
          = [WEvent.jobDeadlineMissed 7 5 3]) ∧
      ((5 : Timestamp) ≤ 3 →
        (runJob "w" 5 ⟨7, "t", none, some 1, some 3, FuncResult.returns 42⟩ [7]).events
          = WEvent.jobStarted 7 5 :: [WEvent.jobCompleted 7 42]))) :=
  ⟨by decide, run_job_single_terminal_outcome "w" 5 _ [7] (by decide)⟩

/-- C5: counterexample evaluation for release_schedules. The claim requires the lock
fields of an updated schedule to be cleared and rows no longer owned by the releasing
scheduler to be skipped silently. Releasing schedule x (still owned by scheduler A,
next fire time 50) on the SQLAlchemy store updates the row but leaves acquired_by = A
and acquired_until = 40 in place; and releasing finished schedule y, whose row is now
owned by scheduler B, leaves the row untouched yet still publishes
ScheduleRemoved y. -/
theorem release_schedules_contract_violations :
    sqlaReleaseSchedules true "A" [⟨"x", "t", some 50, true⟩]
        [⟨"x", "t", SData.good ⟨"x", "t", some 5, true⟩, some 5, some "A", some 40⟩]
      = ([⟨"x", "t", SData.good ⟨"x", "t", some 50, true⟩, some 50, some "A", some 40⟩],
         [DSEvent.scheduleUpdated "x" (some 50)]) ∧
    sqlaReleaseSchedules true "A" [⟨"y", "t", none, true⟩]
        [⟨"y", "t", SData.good ⟨"y", "t", some 5, true⟩, some 5, some "B", some 100⟩]
      = ([⟨"y", "t", SData.good ⟨"y", "t", some 5, true⟩, some 5, some "B", some 100⟩],
         [DSEvent.scheduleRemoved "y"]) :=
  ⟨rfl, rfl⟩

/-- C6: counterexample evaluation for the deserialization-failure contract. The claim
requires every back end to skip a failing row, publish a DeserializationFailed event
and return the remaining rows. On the MongoDB store, acquire_schedules has no per-row
handler, so one corrupt row aborts the whole call with the error; and get_schedules
skips the corrupt row with only a log line, publishing no event (its embedding has no
event output at all). -/
theorem mongo_deserialization_failure_behavior :
    mongoAcquireSchedules 10 "A" 100 30 [⟨"bad", "t", SData.bad, some 5, none, none⟩]
      = .error () ∧
    mongoGetSchedules none
        [⟨"bad", "t", SData.bad, some 5, none, none⟩,
         ⟨"good", "t", SData.good ⟨"good", "t", some 5, true⟩, some 5, none, none⟩]
      = [⟨"good", "t", some 5, true⟩] :=
  ⟨rfl, rfl⟩

/-- C7: counterexample evaluation for acquire_jobs. The claim requires the result to
always be a list, empty when no job has an expired or absent lease. On the MongoDB
store, when no job matches, the function falls off its end and returns None (the none
result here); the SQLAlchemy store does return an empty list on the same input. -/
theorem mongo_acquire_jobs_returns_none :
    mongoAcquireJobs 10 "w" 5 30 [] = .ok (none, []) ∧
    sqlaAcquireJobs 10 "w" 5 30 [] = ([], [], []) :=
  ⟨rfl, rfl⟩

/-- C8: counterexample evaluation for remove_schedules. The claim requires the call to
complete without an internal error on every back end configuration and to remove only
schedules whose lock is expired or absent. On the SQLAlchemy store under a dialect
without RETURNING support, the publish loop reads the never-assigned removed_ids
variable and raises (the error result) after the delete has already committed; and the
MongoDB store deletes schedule y even though its lock is live until 1000, publishing
ScheduleRemoved for it. -/
theorem remove_schedules_contract_violations :
    sqlaRemoveSchedules false 10 ["x"]
        [⟨"x", "t", SData.good ⟨"x", "t", some 5, true⟩, some 5, none, none⟩]
      = ([], .error ()) ∧
    mongoRemoveSchedules ["y"]
        [⟨"y", "t", SData.good ⟨"y", "t", some 5, true⟩, some 5, some "B", some 1000⟩]
      = ([], [DSEvent.scheduleRemoved "y"]) :=
  ⟨rfl, rfl⟩

/-- Helper: mapping a function that fixes every element of a list leaves the list
unchanged. -/
theorem mapEqSelfOfFix {α : Type} {l : List α} {f : α → α}
    (h : ∀ a ∈ l, f a = a) : l.map f = l := by
  induction l with
  | nil => rfl
  | cons x xs ih =>
    rw [List.map_cons, h x (by simp), ih (fun a ha => h a (by simp [ha]))]

/-- C9: add_schedule conflict-policy behavior on both back ends. A fresh insert (no
row with the schedule id in the table) appends the row and emits ScheduleAdded under
any policy; calling again with a schedule of the same id, do_nothing writes nothing
and emits nothing, exception fails with ConflictingId (no write), and replace
overwrites the serialized data and next_fire_time of the existing row and emits
ScheduleUpdated (the MongoDB replace rewrites the whole document, the SQLAlchemy
update leaves the task id column as it was). -/
theorem add_schedule_conflict_policies (table : List SchedRow) (s1 s2 : Sched)
    (p : ConflictPolicy)
    (h1 : s1.serializeOk = true) (h2 : s2.serializeOk = true)
    (hid : s2.id = s1.id)
    (hfresh : table.all (fun r => r.id != s1.id) = true) :
    (sqlaAddSchedule s1 p table
      = .ok (table ++ [insertedScheduleRow s1],
             [DSEvent.scheduleAdded s1.id s1.nextFireTime])) ∧
    (mongoAddSchedule s1 p table
      = .ok (table ++ [insertedScheduleRow s1],
             [DSEvent.scheduleAdded s1.id s1.nextFireTime])) ∧
    (sqlaAddSchedule s2 .doNothing (table ++ [insertedScheduleRow s1])
      = .ok (table ++ [insertedScheduleRow s1], [])) ∧
    (mongoAddSchedule s2 .doNothing (table ++ [insertedScheduleRow s1])
      = .ok (table ++ [insertedScheduleRow s1], [])) ∧
    (sqlaAddSchedule s2 .exception (table ++ [insertedScheduleRow s1])
      = .error (.conflictingId s2.id)) ∧
    (mongoAddSchedule s2 .exception (table ++ [insertedScheduleRow s1])
      = .error (.conflictingId s2.id)) ∧
    (sqlaAddSchedule s2 .replace (table ++ [insertedScheduleRow s1])
      = .ok (table ++ [⟨s1.id, s1.taskId, SData.good s2, s2.nextFireTime, none, none⟩],
             [DSEvent.scheduleUpdated s2.id s2.nextFireTime])) ∧
    (mongoAddSchedule s2 .replace (table ++ [insertedScheduleRow s1])
      = .ok (table ++ [⟨s2.id, s2.taskId, SData.good s2, s2.nextFireTime, none, none⟩],
             [DSEvent.scheduleUpdated s2.id s2.nextFireTime])) := by
  have hser1 : serializeSched s1 = .ok (SData.good s1) := by simp [serializeSched, h1]
  have hser2 : serializeSched s2 = .ok (SData.good s2) := by simp [serializeSched, h2]
  simp only [List.all_eq_true, bne_iff_ne, ne_eq] at hfresh
  have hany1 : table.any (fun r => r.id == s1.id) = false := by
    rw [List.any_eq_false]
    intro r hr
    simp only [beq_iff_eq]
    exact hfresh r hr
  have hany2 : (table ++ [insertedScheduleRow s1]).any (fun r => r.id == s2.id) = true := by
    simp [List.any_append, insertedScheduleRow, hid]
  have hne2 : ∀ r ∈ table, (r.id == s2.id) = false := by
    intro r hr
    rw [beq_eq_false_iff_ne, hid]
    exact hfresh r hr
  refine ⟨?_, ?_, ?_, ?_, ?_, ?_, ?_, ?_⟩
  · simp [sqlaAddSchedule, hser1, hany1, insertedScheduleRow]
  · simp [mongoAddSchedule, hser1, hany1, insertedScheduleRow]
  · simp [sqlaAddSchedule, hser2, hany2]
  · simp [mongoAddSchedule, hser2, hany2]
  · simp [sqlaAddSchedule, hser2, hany2]
  · simp [mongoAddSchedule, hser2, hany2]
  · simp only [sqlaAddSchedule, hser2, hany2, if_true, List.map_append]
    rw [mapEqSelfOfFix (fun r hr => by simp [hfresh r hr, hid])]
    simp [insertedScheduleRow, hid]
  · simp only [mongoAddSchedule, hser2, hany2, if_true, List.map_append]
    rw [mapEqSelfOfFix (fun r hr => by simp [hfresh r hr, hid])]
    simp [insertedScheduleRow, hid]

/-- Witness for C9 at a concrete input: schedules a/t1 and a/t2 with the same id on an
empty store, policy do_nothing for the fresh insert. -/
theorem add_schedule_conflict_policies_witness :
    ((⟨"a", "t1", some 1, true⟩ : Sched).serializeOk = true) ∧
    ((⟨"a", "t2", some 2, true⟩ : Sched).serializeOk = true) ∧
    ((⟨"a", "t2", some 2, true⟩ : Sched).id = (⟨"a", "t1", some 1, true⟩ : Sched).id) ∧
    (([] : List SchedRow).all (fun r => r.id != "a") = true) ∧
    ((sqlaAddSchedule ⟨"a", "t1", some 1, true⟩ ConflictPolicy.doNothing []
        = .ok ([insertedScheduleRow ⟨"a", "t1", some 1, true⟩],
               [DSEvent.scheduleAdded "a" (some 1)])) ∧
     (mongoAddSchedule ⟨"a", "t1", some 1, true⟩ ConflictPolicy.doNothing []
        = .ok ([insertedScheduleRow ⟨"a", "t1", some 1, true⟩],
               [DSEvent.scheduleAdded "a" (some 1)])) ∧
     (sqlaAddSchedule ⟨"a", "t2", some 2, true⟩ .doNothing
          [insertedScheduleRow ⟨"a", "t1", some 1, true⟩]
        = .ok ([insertedScheduleRow ⟨"a", "t1", some 1, true⟩], [])) ∧
     (mongoAddSchedule ⟨"a", "t2", some 2, true⟩ .doNothing
          [insertedScheduleRow ⟨"a", "t1", some 1, true⟩]
        = .ok ([insertedScheduleRow ⟨"a", "t1", some 1, true⟩], [])) ∧
     (sqlaAddSchedule ⟨"a", "t2", some 2, true⟩ .exception
          [insertedScheduleRow ⟨"a", "t1", some 1, true⟩]
        = .error (.conflictingId "a")) ∧
     (mongoAddSchedule ⟨"a", "t2", some 2, true⟩ .exception
          [insertedScheduleRow ⟨"a", "t1", some 1, true⟩]
        = .error (.conflictingId "a")) ∧
     (sqlaAddSchedule ⟨"a", "t2", some 2, true⟩ .replace
          [insertedScheduleRow ⟨"a", "t1", some 1, true⟩]
        = .ok ([⟨"a", "t1", SData.good ⟨"a", "t2", some 2, true⟩, some 2, none, none⟩],
               [DSEvent.scheduleUpdated "a" (some 2)])) ∧
     (mongoAddSchedule ⟨"a", "t2", some 2, true⟩ .replace
          [insertedScheduleRow ⟨"a", "t1", some 1, true⟩]
        = .ok ([⟨"a", "t2", SData.good ⟨"a", "t2", some 2, true⟩, some 2, none, none⟩],
               [DSEvent.scheduleUpdated "a" (some 2)]))) :=
  ⟨rfl, rfl, rfl, rfl,
   add_schedule_conflict_policies [] ⟨"a", "t1", some 1, true⟩ ⟨"a", "t2", some 2, true⟩
     ConflictPolicy.doNothing rfl rfl rfl rfl⟩

/-- C10: unsubscribing a token that is not in the subscription table is a no-op: it
raises nothing (the operation is total) and leaves the table unchanged; and
unsubscribe is idempotent, so unsubscribing an already-unsubscribed token is also a
no-op. -/
theorem unsubscribe_unknown_token_noop (subs : List (Nat × Subscription)) (tok : Nat)
    (h : subs.all (fun p => p.1 != tok) = true) :
    unsubscribeHub subs tok = subs ∧
    unsubscribeHub (unsubscribeHub subs tok) tok = unsubscribeHub subs tok := by
  refine ⟨?_, ?_⟩
  · rw [List.all_eq_true] at h
    simp only [unsubscribeHub]
    rw [List.filter_eq_self]
    exact h
  · simp only [unsubscribeHub]
    rw [List.filter_filter]
    exact List.filter_congr (fun x _ => by cases hb : x.1 != tok <;> simp [hb])

/-- Witness for C10 at a concrete input: token 2 was never issued by a hub whose table
holds only token 1, and unsubscribing it once or twice leaves the table as it is. -/
theorem unsubscribe_unknown_token_noop_witness :
    ([(1, (⟨5, none⟩ : Subscription))].all (fun p => p.1 != 2) = true) ∧
    (unsubscribeHub [(1, (⟨5, none⟩ : Subscription))] 2
        = [(1, (⟨5, none⟩ : Subscription))] ∧
     unsubscribeHub (unsubscribeHub [(1, (⟨5, none⟩ : Subscription))] 2) 2
        = unsubscribeHub [(1, (⟨5, none⟩ : Subscription))] 2) :=
  ⟨by decide, unsubscribe_unknown_token_noop [(1, ⟨5, none⟩)] 2 (by decide)⟩

end APScheduler
